import Mathlib

/-!
Verification of the asset-to-owner allocation and reconciliation engine of
the `asset-acts` repository.

The repository contains three near-identical pipelines:
* `src/src/google_api.py` (helped by `src/src/data_utils.py`,
  `src/src/formatters.py`, `src/src/config.py`) — the refactored variant,
  embedded below with the `Api` suffix;
* `src/main.py` — embedded with the `Main` suffix;
* `src/document_generator.py` — embedded with the `Gen` suffix.

Spreadsheet cells are modelled as `String`, rows as `List String`, and
Python `Decimal` values as `ℚ` (arbitrary-precision decimal arithmetic is
exact at the sizes that occur here; the 28-significant-digit context of
`decimal` is not modelled).  Python `str.upper`/`str.lower` are modelled
ASCII-only (`Char.toUpper`/`Char.toLower`); every concrete input used in a
witness or counterexample keeps case-sensitive characters in ASCII.
-/

/-- Whitespace set used by Python `str.strip()` / `re` `\s` (ASCII part
plus the no-break space that the sources explicitly remove). -/
def pyIsSpace (c : Char) : Bool :=
  c = ' ' || c = '\t' || c = '\n' || c = '\r' || c = '\x0b' || c = '\x0c' || c = '\xa0'

/-- Python `str.strip()` on a character list. -/
def pyStripList (cs : List Char) : List Char :=
  ((cs.dropWhile pyIsSpace).reverse.dropWhile pyIsSpace).reverse

/-- Python `str.strip()`. -/
def pyStrip (s : String) : String :=
  ⟨pyStripList s.data⟩

/-- Python `str.lower()` (ASCII model). -/
def pyLower (s : String) : String :=
  ⟨s.data.map Char.toLower⟩

/-- Python `str.upper()` (ASCII model). -/
def pyUpper (s : String) : String :=
  ⟨s.data.map Char.toUpper⟩

/-- Python `str.split(sep)` for a one-character separator: always returns
one more piece than there are separators, so `"".split(sep) = [""]`. -/
def splitOnChar (sep : Char) : List Char → List (List Char)
  | [] => [[]]
  | c :: cs =>
    let r := splitOnChar sep cs
    if c = sep then [] :: r
    else
      match r with
      | [] => [[c]]
      | t :: ts => (c :: t) :: ts

/-- Splitting on every character satisfying a predicate (used to state the
spec's "splits on newlines and commas" in one pass). -/
def splitOnPred (p : Char → Bool) : List Char → List (List Char)
  | [] => [[]]
  | c :: cs =>
    let r := splitOnPred p cs
    if p c then [] :: r
    else
      match r with
      | [] => [[c]]
      | t :: ts => (c :: t) :: ts

/-- `" ".join(parts)`. -/
def joinSpace : List String → String
  | [] => ""
  | [s] => s
  | s :: rest => s ++ " " ++ joinSpace rest

/-- Rounding a rational to an integer with ties going away from zero:
Python `decimal`'s `ROUND_HALF_UP`. -/
def halfUp (y : ℚ) : ℤ :=
  if 0 ≤ y then ⌊y + 1/2⌋ else -⌊-y + 1/2⌋

/-- `data_utils.quantize_money` / the inline `quantize(Decimal("0.01"),
ROUND_HALF_UP)` calls: round to the cent, half away from zero. -/
def quantizeMoney (d : ℚ) : ℚ :=
  (halfUp (d * 100) : ℚ) / 100

/-- Python `int(Decimal)`: truncation toward zero. -/
def pyInt (x : ℚ) : ℤ :=
  if 0 ≤ x then ⌊x⌋ else ⌈x⌉

/-- A rational that is a whole number of cents (the image of
`quantizeMoney`). -/
def isCent (x : ℚ) : Prop :=
  ∃ k : ℤ, x = (k : ℚ) / 100

theorem quantizeMoney_isCent (x : ℚ) : isCent (quantizeMoney x) :=
  ⟨halfUp (x * 100), rfl⟩

theorem isCent_add {x y : ℚ} (hx : isCent x) (hy : isCent y) : isCent (x + y) := by
  obtain ⟨a, ha⟩ := hx
  obtain ⟨b, hb⟩ := hy
  exact ⟨a + b, by push_cast [ha, hb]; ring⟩

theorem isCent_sub {x y : ℚ} (hx : isCent x) (hy : isCent y) : isCent (x - y) := by
  obtain ⟨a, ha⟩ := hx
  obtain ⟨b, hb⟩ := hy
  exact ⟨a - b, by push_cast [ha, hb]; ring⟩

theorem isCent_zero : isCent (0 : ℚ) :=
  ⟨0, by norm_num⟩

theorem isCent_sum {l : List ℚ} (h : ∀ x ∈ l, isCent x) : isCent l.sum := by
  induction l with
  | nil => simpa using isCent_zero
  | cons a t ih =>
    simp only [List.sum_cons]
    exact isCent_add (h a (by simp)) (ih fun x hx => h x (by simp [hx]))

theorem halfUp_intCast (k : ℤ) : halfUp (k : ℚ) = k := by
  unfold halfUp
  have h2 : ⌊(1 : ℚ)/2⌋ = 0 := by norm_num [Int.floor_eq_zero_iff]
  by_cases hk : (0 : ℚ) ≤ (k : ℚ)
  · rw [if_pos hk, add_comm, Int.floor_add_int, h2, zero_add]
  · rw [if_neg hk]
    have : -(k : ℚ) = ((-k : ℤ) : ℚ) := by push_cast; ring
    rw [this, add_comm, Int.floor_add_int, h2, zero_add, neg_neg]

theorem quantizeMoney_eq_self {x : ℚ} (h : isCent x) : quantizeMoney x = x := by
  obtain ⟨k, hk⟩ := h
  have hx : x * 100 = (k : ℚ) := by rw [hk]; field_simp
  rw [quantizeMoney, hx, halfUp_intCast, hk]

theorem quantizeMoney_add_cancel {a b : ℚ} (ha : isCent a) (hb : isCent b) :
    quantizeMoney (a + b) = a + b :=
  quantizeMoney_eq_self (isCent_add ha hb)

/-- Value of a digit string. -/
def digitsVal (cs : List Char) : ℕ :=
  cs.foldl (fun a d => a * 10 + (d.toNat - '0'.toNat)) 0

/-- `Decimal(text)` restricted to plain finite literals
`[+|-] digits [. digits]` with at least one digit (exponent forms,
`NaN`/`Infinity` and digit-group underscores are not modelled; none occur
in the claims). -/
def parseDecimal (cs : List Char) : Option ℚ :=
  let (sign, body) :=
    match cs with
    | '+' :: rest => ((1 : ℚ), rest)
    | '-' :: rest => ((-1 : ℚ), rest)
    | rest => ((1 : ℚ), rest)
  let intPart := body.takeWhile Char.isDigit
  let rest := body.dropWhile Char.isDigit
  match rest with
  | [] =>
    if intPart.isEmpty then none
    else some (sign * (digitsVal intPart : ℚ))
  | '.' :: fracAll =>
    let fracPart := fracAll.takeWhile Char.isDigit
    if ¬ fracAll.all Char.isDigit then none
    else if intPart.isEmpty ∧ fracPart.isEmpty then none
    else some (sign * ((digitsVal intPart : ℚ) + (digitsVal fracPart : ℚ) / (10 ^ fracPart.length : ℕ)))
  | _ => none

/-- `data_utils.parse_string_number` (and the identical `parse_number` of
`main.py` / `document_generator.py`): strip, drop every `\xa0` and space,
map the comma decimal separator to a period, then parse; `none` models the
raised `ValueError`. -/
def parseStringNumber (s : String) : Option ℚ :=
  let st := pyStripList s.data
  let st := st.filter (fun c => ¬ (c = '\xa0' ∨ c = ' '))
  let st := st.map (fun c => if c = ',' then '.' else c)
  if st.isEmpty then none else parseDecimal st

/-- `data_utils.safe_get` (1-based column access with `""` default). -/
def safeGet (row : List String) (col : ℕ) : String :=
  if col = 0 then "" else row.getD (col - 1) ""

/-- Recognizer for the regex suffix `\s*([0-9]+)\s*$`: optional whitespace,
a nonempty digit run, optional whitespace to the end. -/
def suffixQty (cs : List Char) : Option ℕ :=
  let cs1 := cs.dropWhile pyIsSpace
  let digits := cs1.takeWhile Char.isDigit
  let rest := cs1.dropWhile Char.isDigit
  if digits.isEmpty then none
  else if rest.all pyIsSpace then some (digitsVal digits) else none

/-- Search for the leftmost `-` whose suffix matches `\s*[0-9]+\s*$` — the
behaviour of the lazy group in `re.match(r"^(.*?)-\s*([0-9]+)\s*$", tok)`. -/
def ownerTokenSplit (acc : List Char) : List Char → Option (List Char × ℕ)
  | [] => none
  | c :: cs =>
    if c = '-' then
      match suffixQty cs with
      | some n => some (acc.reverse, n)
      | none => ownerTokenSplit (c :: acc) cs
    else ownerTokenSplit (c :: acc) cs

/-- `data_utils.parse_owner_token` (identical copies live in `main.py` and
`document_generator.py`): strip the token; `CODE-N` yields
`(CODE stripped, N, explicit)`, anything else is an implicit bare code. -/
def parseOwnerToken (tok : String) : String × Option ℕ × Bool :=
  let cs := pyStripList tok.data
  match ownerTokenSplit [] cs with
  | some (base, n) => (⟨pyStripList base⟩, some n, true)
  | none => (⟨cs⟩, none, false)

/-- `data_utils.validate_required_fields`. -/
def validateRequiredFields (row : List String) (fields : List (ℕ × String)) : List String :=
  fields.filterMap (fun f => if pyStrip (safeGet row f.1) = "" then some f.2 else none)

/-- `data_utils.ProcessingStats`, which also models the five loose counters
of `main.py` / `document_generator.py`. -/
structure Stats where
  rowsProcessed : ℕ
  rowsSkipped : ℕ
  ownersSkipped : ℕ
  totalItemsInActs : ℕ
  totalValueGenerated : ℚ
deriving DecidableEq, Repr

def initStats : Stats :=
  ⟨0, 0, 0, 0, 0⟩

/-- One owner's share of one asset row (the dict appended to
`per_owner[key]["items"]`). -/
structure Item where
  name : String
  inventory : String
  unit : String
  qty : ℕ
  unitPrice : ℚ
  sum : ℚ
  note : String
deriving DecidableEq, Repr

/-- One `per_owner` entry: `{"dept": …, "items": […], "tot_qty": …,
"tot_sum": …}`. -/
structure Ledger (Dept : Type) where
  dept : Dept
  items : List Item
  totQty : ℕ
  totSum : ℚ
deriving DecidableEq, Repr

/-- The data `_extract_asset_row_data` returns (and the corresponding local
variables of the `main.py` / `document_generator.py` row loops). -/
structure AssetData where
  name : String
  invnum : String
  unit : String
  qty : ℕ
  price : ℚ
  unitPrice : ℚ
  ownersRaw : String
deriving DecidableEq, Repr

/-- Outcome of one pass of the row loop: a silently ignored blank row, a
skipped row (with the number of `owners_skipped` increments it performed),
or an allocated row carrying the resolved owners and their reconciled
sums. -/
inductive RowResult (Dept : Type) where
  | blank : RowResult Dept
  | skipped : ℕ → RowResult Dept
  | allocated : AssetData → List (String × ℕ × Dept) → List ℚ → ℕ → RowResult Dept
deriving DecidableEq, Repr

/-- The accumulator of the row loop: the insertion-ordered `per_owner`
dictionary and the statistics counters. -/
abbrev PState (Dept : Type) : Type :=
  List (String × Ledger Dept) × Stats

def initState {Dept : Type} : PState Dept :=
  ([], initStats)

/-- Append an item to a ledger and bump its running totals (the three
`per_owner[key][…]` updates). -/
def pushItem {Dept : Type} (l : Ledger Dept) (it : Item) : Ledger Dept :=
  ⟨l.dept, l.items ++ [it], l.totQty + it.qty, l.totSum + it.sum⟩

/-- `per_owner` update: mutate the existing entry for `key` if present
(dict keys are unique, so at most the first match exists), otherwise
insert a fresh ledger at the end — Python dicts preserve insertion
order. -/
def addToOwner {Dept : Type} : List (String × Ledger Dept) → String → Dept → Item →
    List (String × Ledger Dept)
  | [], key, dept, it => [(key, ⟨dept, [it], it.qty, it.sum⟩)]
  | (k, l) :: rest, key, dept, it =>
    if k = key then (k, pushItem l it) :: rest
    else (k, l) :: addToOwner rest key dept it

/-- `ProcessingStats.add_item` (and the two inline counter increments of
the duplicated pipelines). -/
def addItemStats (st : Stats) (value : ℚ) : Stats :=
  { st with
    totalItemsInActs := st.totalItemsInActs + 1
    totalValueGenerated := st.totalValueGenerated + value }

/-- The LineItem dict built inside the allocation loop. -/
def mkItem (data : AssetData) (oqty : ℕ) (osum : ℚ) : Item :=
  ⟨data.name, data.invnum, data.unit, oqty, data.unitPrice, osum, ""⟩

/-- The `for (key, oqty, dept), osum in zip(owners_for_row, owner_sums)`
loop: append every line item and bump the per-owner and batch counters. -/
def allocateAll {Dept : Type} (data : AssetData) (st : PState Dept)
    (pairs : List ((String × ℕ × Dept) × ℚ)) : PState Dept :=
  pairs.foldl
    (fun s p =>
      (addToOwner s.1 p.1.1 p.1.2.2 (mkItem data p.1.2.1 p.2), addItemStats s.2 p.2))
    st

/-- Fold one row outcome into the loop state: blank rows are ignored,
skipped rows bump `rows_skipped` (plus any `owners_skipped` performed while
resolving), allocated rows append all line items, add the row's
`owners_skipped`, and bump `rows_processed`. -/
def applyRow {Dept : Type} (st : PState Dept) : RowResult Dept → PState Dept
  | .blank => st
  | .skipped k =>
    (st.1, { st.2 with
              rowsSkipped := st.2.rowsSkipped + 1
              ownersSkipped := st.2.ownersSkipped + k })
  | .allocated data owners sums k =>
    let s1 := allocateAll data st (owners.zip sums)
    (s1.1, { s1.2 with
              ownersSkipped := s1.2.ownersSkipped + k
              rowsProcessed := s1.2.rowsProcessed + 1 })

/-- Run the row loop over a list of data rows. -/
def applyRows {Dept : Type} (pr : List String → RowResult Dept)
    (rows : List (List String)) (st : PState Dept) : PState Dept :=
  rows.foldl (fun s row => applyRow s (pr row)) st

/-- `config.ALLOW_ROUNDING_ADJUST` (both `main.py` and
`document_generator.py` define the same constant with the same value). -/
def ALLOW_ROUNDING_ADJUST : Bool := true

/-- Asset-sheet columns of `src/src/config.py` (1-based). -/
def API_COL_NAME : ℕ := 3
def API_COL_INVENTORY_NUMBER : ℕ := 5
def API_COL_UNIT : ℕ := 6
def API_COL_QUANTITY : ℕ := 7
def API_COL_PRICE : ℕ := 9
def API_COL_OWNERS : ℕ := 10
def API_COL_GENERATE_FLAG : ℕ := 11

/-- `google_api._parse_owner_tokens_from_string`: split on newlines, then
each line on commas, strip each token, keep the nonempty ones in order. -/
def parseOwnerTokensFromString (ownersRaw : String) : List String :=
  (splitOnChar '\n' ownersRaw.data).flatMap
    (fun line =>
      (splitOnChar ',' line).filterMap
        (fun tok =>
          let t := pyStripList tok
          if t.isEmpty then none else some (⟨t⟩ : String)))

/-- `google_api._validate_explicit_owners` (log-only arguments dropped):
all tokens must be explicit and their quantities must sum to the row
quantity. -/
def validateExplicitOwners (tokenInfos : List (String × Option ℕ × Bool)) (qty : ℕ) : Bool :=
  tokenInfos.all (fun t => t.2.2) &&
    (tokenInfos.map (fun t => t.2.1.getD 0)).sum == qty

/-- `google_api._validate_implicit_owner`: exactly one implicit token. -/
def validateImplicitOwner (tokenInfos : List (String × Option ℕ × Bool)) : Bool :=
  tokenInfos.length == 1

/-- `google_api._validate_and_parse_owner_tokens` (the same block is inlined
in `main.py` and `document_generator.py`): parse every token, then apply the
explicit rules when any token is explicit, otherwise require a single
implicit token and assign it the whole row quantity. -/
def validateAndParseOwnerTokens (tokens : List String) (qty : ℕ) :
    Option (List (String × Option ℕ × Bool)) :=
  let infos := tokens.map parseOwnerToken
  if infos.any (fun t => t.2.2) then
    if validateExplicitOwners infos qty then some infos else none
  else
    if validateImplicitOwner infos then
      some [((infos.headD ("", none, false)).1, some qty, true)]
    else none

/-- `google_api._resolve_owners_with_departments`: keys are the stripped
bases (no case folding in this variant); unresolved codes are dropped and
counted (`stats.skip_owner()`), returned as the second component.  The
`Option.getD 0` mirrors `int(num)`: every caller has already validated the
tokens, so the quantity is present. -/
def resolveOwnersWithDepartments {Dept : Type} (departments : String → Option Dept) :
    List (String × Option ℕ × Bool) → List (String × ℕ × Dept) × ℕ
  | [] => ([], 0)
  | (base, num, _) :: rest =>
    let r := resolveOwnersWithDepartments departments rest
    match departments (pyStrip base) with
    | none => (r.1, r.2 + 1)
    | some dept => ((pyStrip base, num.getD 0, dept) :: r.1, r.2)

/-- The first loop of `google_api._calculate_owner_amounts`: each owner's
quantized proportional share `quantize_money(unit_price * oqty)`. -/
def proportionalSums {Dept : Type} (ownersForRow : List (String × ℕ × Dept))
    (unitPrice : ℚ) : List ℚ :=
  ownersForRow.map (fun o => quantizeMoney (unitPrice * (o.2.1 : ℚ)))

/-- `google_api._calculate_owner_amounts` (inlined verbatim in `main.py`
and `document_generator.py`): quantize every proportional share; if the
total differs from the quantized row price and adjustment is allowed,
replace the last share (`owner_sums[-1]`) by itself plus the whole
difference. -/
def calculateOwnerAmounts {Dept : Type} (ownersForRow : List (String × ℕ × Dept))
    (unitPrice totalPrice : ℚ) (allowAdjust : Bool) : List ℚ :=
  let sums := proportionalSums ownersForRow unitPrice
  let priceQ := quantizeMoney totalPrice
  if allowAdjust ∧ sums.sum ≠ priceQ then
    sums.dropLast ++ [quantizeMoney (sums.getLastD 0 + (priceQ - sums.sum))]
  else sums

/-- `google_api._extract_asset_row_data` (statistics side effects are
accounted for by the caller): require the six mandatory cells, parse the
quantity (`int(...)` truncates) and the price, reject non-positive
quantity, and compute the row's unit price once. -/
def extractAssetRowData (row : List String) : Option AssetData :=
  let required := [(API_COL_NAME, "name"), (API_COL_INVENTORY_NUMBER, "inventory_number"),
    (API_COL_UNIT, "unit"), (API_COL_QUANTITY, "quantity"),
    (API_COL_PRICE, "price"), (API_COL_OWNERS, "owners")]
  if ¬ (validateRequiredFields row required).isEmpty then none
  else
    match parseStringNumber (safeGet row API_COL_QUANTITY),
        parseStringNumber (safeGet row API_COL_PRICE) with
    | some qtyD, some price =>
      let qtyZ := pyInt qtyD
      if qtyZ ≤ 0 then none
      else
        some ⟨safeGet row API_COL_NAME, safeGet row API_COL_INVENTORY_NUMBER,
          pyLower (safeGet row API_COL_UNIT), qtyZ.toNat, price,
          quantizeMoney (price / (qtyZ : ℚ)), safeGet row API_COL_OWNERS⟩
    | _, _ => none

/-- One pass of the `google_api.parse_assets` row loop. -/
def processRowApi {Dept : Type} (departments : String → Option Dept)
    (row : List String) : RowResult Dept :=
  if ¬ row.any (fun c => pyStrip c ≠ "") then .blank
  else if pyUpper (pyStrip (safeGet row API_COL_GENERATE_FLAG)) ≠ "TRUE" then .skipped 0
  else
    match extractAssetRowData row with
    | none => .skipped 0
    | some data =>
      let tokens := parseOwnerTokensFromString data.ownersRaw
      if tokens.isEmpty then .skipped 0
      else
        match validateAndParseOwnerTokens tokens data.qty with
        | none => .skipped 0
        | some infos =>
          let rk := resolveOwnersWithDepartments departments infos
          if rk.1.isEmpty then .skipped rk.2
          else .allocated data rk.1
            (calculateOwnerAmounts rk.1 data.unitPrice data.price ALLOW_ROUNDING_ADJUST) rk.2

/-- `google_api.parse_assets`: short-circuit on a sheet without data rows,
otherwise fold the row loop over everything after the header row. -/
def parseAssetsApi {Dept : Type} (departments : String → Option Dept)
    (vals : List (List String)) : PState Dept :=
  if vals.length < 2 then initState
  else applyRows (processRowApi departments) (vals.drop 1) initState

/-- Asset-sheet columns shared by `main.py` and `document_generator.py`
(1-based). -/
def MG_COL_NAME : ℕ := 2
def MG_COL_INVENTORY_NUMBER : ℕ := 3
def MG_COL_UNIT : ℕ := 4
def MG_COL_QUANTITY : ℕ := 5
def MG_COL_PRICE : ℕ := 6
def MG_COL_OWNERS : ℕ := 7
def MG_COL_GENERATE_FLAG : ℕ := 9

/-- `normalize_code` of `main.py` / `document_generator.py`:
`re.sub(r"\s+", "", token).upper()`. -/
def normalizeCode (token : String) : String :=
  pyUpper ⟨token.data.filter (fun c => ¬ pyIsSpace c)⟩

/-- `document_generator.is_true_flag`: case-insensitive membership in the
truthy-token set. -/
def isTrueFlag (s : String) : Bool :=
  let t := pyLower (pyStrip s)
  t = "true" || t = "1" || t = "yes" || t = "y" || t = "так"

/-- The inline tokenizer of `main.py` / `document_generator.py`
(`[t.strip() for t in str(owners_raw).split(",") if t.strip()]`): commas
only — unlike `google_api._parse_owner_tokens_from_string`, a newline is
not a separator. -/
def tokenizeOwnersMain (ownersRaw : String) : List String :=
  (splitOnChar ',' ownersRaw.data).filterMap
    (fun tok =>
      let t := pyStripList tok
      if t.isEmpty then none else some (⟨t⟩ : String))

/-- The owner-resolution loop of `main.py` / `document_generator.py`:
identical to the `google_api` one except that the lookup key is
`normalize_code(base)` instead of `base.strip()`. -/
def resolveOwnersNormalized {Dept : Type} (departments : String → Option Dept) :
    List (String × Option ℕ × Bool) → List (String × ℕ × Dept) × ℕ
  | [] => ([], 0)
  | (base, num, _) :: rest =>
    let r := resolveOwnersNormalized departments rest
    match departments (normalizeCode base) with
    | none => (r.1, r.2 + 1)
    | some dept => ((normalizeCode base, num.getD 0, dept) :: r.1, r.2)

/-- The try-block of the `main.py` row loop: only the name is required,
quantity and price must parse, the quantity must be positive, and the unit
is lower-cased. -/
def extractRowDataMain (row : List String) : Option AssetData :=
  let name := safeGet row MG_COL_NAME
  if name = "" then none
  else
    match parseStringNumber (safeGet row MG_COL_QUANTITY),
        parseStringNumber (safeGet row MG_COL_PRICE) with
    | some qtyD, some price =>
      let qtyZ := pyInt qtyD
      if qtyZ ≤ 0 then none
      else
        some ⟨name, safeGet row MG_COL_INVENTORY_NUMBER,
          pyLower (safeGet row MG_COL_UNIT), qtyZ.toNat, price,
          quantizeMoney (price / (qtyZ : ℚ)), safeGet row MG_COL_OWNERS⟩
    | _, _ => none

/-- The try-block of the `document_generator.py` row loop: the same as
`main.py` except that the unit cell is used verbatim (no `.lower()`). -/
def extractRowDataGen (row : List String) : Option AssetData :=
  let name := safeGet row MG_COL_NAME
  if name = "" then none
  else
    match parseStringNumber (safeGet row MG_COL_QUANTITY),
        parseStringNumber (safeGet row MG_COL_PRICE) with
    | some qtyD, some price =>
      let qtyZ := pyInt qtyD
      if qtyZ ≤ 0 then none
      else
        some ⟨name, safeGet row MG_COL_INVENTORY_NUMBER,
          safeGet row MG_COL_UNIT, qtyZ.toNat, price,
          quantizeMoney (price / (qtyZ : ℚ)), safeGet row MG_COL_OWNERS⟩
    | _, _ => none

/-- One pass of the `main.py` `parse_assets` row loop. -/
def processRowMain {Dept : Type} (departments : String → Option Dept)
    (row : List String) : RowResult Dept :=
  if ¬ row.any (fun c => pyStrip c ≠ "") then .blank
  else if pyUpper (pyStrip (safeGet row MG_COL_GENERATE_FLAG)) ≠ "TRUE" then .skipped 0
  else
    match extractRowDataMain row with
    | none => .skipped 0
    | some data =>
      let tokens := tokenizeOwnersMain data.ownersRaw
      if tokens.isEmpty then .skipped 0
      else
        match validateAndParseOwnerTokens tokens data.qty with
        | none => .skipped 0
        | some infos =>
          let rk := resolveOwnersNormalized departments infos
          if rk.1.isEmpty then .skipped rk.2
          else .allocated data rk.1
            (calculateOwnerAmounts rk.1 data.unitPrice data.price ALLOW_ROUNDING_ADJUST) rk.2

/-- One pass of the `document_generator.py` `parse_assets` row loop: the
generate-flag goes through `is_true_flag` and the unit keeps its case. -/
def processRowGen {Dept : Type} (departments : String → Option Dept)
    (row : List String) : RowResult Dept :=
  if ¬ row.any (fun c => pyStrip c ≠ "") then .blank
  else if ¬ isTrueFlag (safeGet row MG_COL_GENERATE_FLAG) then .skipped 0
  else
    match extractRowDataGen row with
    | none => .skipped 0
    | some data =>
      let tokens := tokenizeOwnersMain data.ownersRaw
      if tokens.isEmpty then .skipped 0
      else
        match validateAndParseOwnerTokens tokens data.qty with
        | none => .skipped 0
        | some infos =>
          let rk := resolveOwnersNormalized departments infos
          if rk.1.isEmpty then .skipped rk.2
          else .allocated data rk.1
            (calculateOwnerAmounts rk.1 data.unitPrice data.price ALLOW_ROUNDING_ADJUST) rk.2

/-- `main.py.parse_assets`. -/
def parseAssetsMain {Dept : Type} (departments : String → Option Dept)
    (vals : List (List String)) : PState Dept :=
  if vals.length < 2 then initState
  else applyRows (processRowMain departments) (vals.drop 1) initState

/-- `document_generator.parse_assets`. -/
def parseAssetsGen {Dept : Type} (departments : String → Option Dept)
    (vals : List (List String)) : PState Dept :=
  if vals.length < 2 then initState
  else applyRows (processRowGen departments) (vals.drop 1) initState

/-- Python dict assignment on an insertion-ordered association list:
overwrite the (unique) existing binding or append a new one. -/
def dictInsert {α : Type} : List (String × α) → String → α → List (String × α)
  | [], key, v => [(key, v)]
  | (k, x) :: rest, key, v =>
    if k = key then (k, v) :: rest
    else (k, x) :: dictInsert rest key v

/-- Python `dict.get`. -/
def dictGet {α : Type} (d : List (String × α)) (key : String) : Option α :=
  (d.find? (fun e => e.1 = key)).map (fun e => e.2)

/-- Department record stored by `google_api.load_departments`. -/
structure DeptRecApi where
  code : String
  status : String
  position : String
  fullname : String
  formattedName : String
  receiverPosition : String
  receiverFullname : String
  receiverFormatted : String
deriving DecidableEq, Repr

/-- Department-sheet columns of `src/src/config.py` (1-based). -/
def DEPT_COL_CODE : ℕ := 1
def DEPT_COL_STATUS : ℕ := 2
def DEPT_COL_POSITION : ℕ := 3
def DEPT_COL_FULLNAME : ℕ := 4

/-- Modelled from the spec: `google_api.py` imports
`DEPT_COL_RECEIVER_POSITION` and `DEPT_COL_RECEIVER_FULLNAME` from
`config.py`, but `config.py` does not define them; §6 of the spec fixes the
directory column order as code, status, signatory position, signatory full
name, receiver position, receiver full name. -/
def DEPT_COL_RECEIVER_POSITION : ℕ := 5

/-- Modelled from the spec: see `DEPT_COL_RECEIVER_POSITION`. -/
def DEPT_COL_RECEIVER_FULLNAME : ℕ := 6

/-- One row of `google_api.load_departments`.  `fmtName` models
`data_utils.format_ukrainian_name`, which is imported by `google_api.py`
but missing from `data_utils.py`; `none` models the `ValueError` that makes
the loader skip the row.  The key is the code with surrounding whitespace
stripped — this variant applies no further normalization. -/
def loadDepartmentsApiStep (fmtName : String → Option String)
    (depts : List (String × DeptRecApi)) (row : List String) :
    List (String × DeptRecApi) :=
  let code := pyStrip (safeGet row DEPT_COL_CODE)
  if code = "" then depts
  else
    let fullname := safeGet row DEPT_COL_FULLNAME
    let receiverFullname := safeGet row DEPT_COL_RECEIVER_FULLNAME
    match (if fullname = "" then some "" else fmtName fullname),
        (if receiverFullname = "" then some "" else fmtName receiverFullname) with
    | some formatted, some receiverFormatted =>
      dictInsert depts code
        ⟨safeGet row DEPT_COL_CODE, safeGet row DEPT_COL_STATUS,
          safeGet row DEPT_COL_POSITION, fullname, formatted,
          safeGet row DEPT_COL_RECEIVER_POSITION, receiverFullname, receiverFormatted⟩
    | _, _ => depts

/-- `google_api.load_departments`. -/
def loadDepartmentsApi (fmtName : String → Option String)
    (vals : List (List String)) : List (String × DeptRecApi) :=
  if vals.length < 2 then []
  else (vals.drop 1).foldl (loadDepartmentsApiStep fmtName) []

/-- Department record stored by `main.py` / `document_generator.py`
`load_departments` (code, type, status, position, fullname, normalized). -/
structure DeptRecGen where
  code : String
  dtype : String
  status : String
  position : String
  fullname : String
  normalized : String
deriving DecidableEq, Repr

/-- One row of `document_generator.load_departments` (the `main.py` loader
stores the same record from the same columns): skip empty codes, key by
`normalize_code(code)`. -/
def loadDepartmentsGenStep (depts : List (String × DeptRecGen)) (row : List String) :
    List (String × DeptRecGen) :=
  let code := pyStrip (safeGet row 1)
  if code = "" then depts
  else
    dictInsert depts (normalizeCode code)
      ⟨safeGet row 1, safeGet row 2, safeGet row 3, safeGet row 4,
        safeGet row 5, safeGet row 6⟩

/-- `document_generator.load_departments` / `main.load_departments`. -/
def loadDepartmentsGen (vals : List (List String)) : List (String × DeptRecGen) :=
  if vals.length < 2 then []
  else (vals.drop 1).foldl loadDepartmentsGenStep []

/-- `_form_for` of `formatters.money_to_words` (identical in `main.py`):
pick the grammatical form of the thousands noun by the Slavic
numeral-agreement rule. -/
def formFor (n : ℤ) (f1 f2 f3 : String) : String :=
  let m := n.natAbs
  if m % 10 = 1 ∧ m % 100 ≠ 11 then f1
  else if (m % 10 = 2 ∨ m % 10 = 3 ∨ m % 10 = 4) ∧
      ¬ (m % 100 = 12 ∨ m % 100 = 13 ∨ m % 100 = 14) then f2
  else f3

/-- `re.sub(r'\bword\b', repl, s)` for space-separated Cyrillic words: the
only word boundaries `num2words` output contains are the joining spaces, so
whole-word substitution on the space-split word list is exact. -/
def subWord (tgt repl s : String) : String :=
  joinSpace ((splitOnChar ' ' s.data).map
    (fun w => if (⟨w⟩ : String) = tgt then repl else (⟨w⟩ : String)))

/-- Python `f"{k:02d}"` for `0 ≤ k < 100`. -/
def twoDigit (k : ℤ) : String :=
  (if k < 10 then "0" else "") ++ toString k

/-- `formatters.money_to_words` (identical in `main.py`), parameterized by
`nw`, a model of `num2words(·, lang="uk")`: quantize, split into hryvnias
and kopecks, build "<thousands-words> <thousands-noun> <remainder-words>",
then apply the feminine overrides to the WHOLE joined string, remainder
words included. -/
def moneyToWords (nw : ℤ → String) (amount : ℚ) : String :=
  let q := quantizeMoney amount
  let totalKop := pyInt (q * 100)
  let hryv := Int.ediv totalKop 100
  let kop := Int.emod totalKop 100
  let hryvWords :=
    if hryv = 0 then "нуль"
    else
      let thousands := Int.ediv hryv 1000
      let rest := Int.emod hryv 1000
      joinSpace
        ((if thousands ≠ 0 then [nw thousands, formFor thousands "тисяча" "тисячі" "тисяч"]
          else []) ++
         (if rest ≠ 0 then [nw rest] else []))
  let w := subWord "два" "дві" (subWord "один" "одна" hryvWords)
  w ++ " грн. " ++ twoDigit kop ++ " коп."

/-- The claim's reading of `money_to_words` (written from the spec's words,
to be compared with the source embedding): the feminine overrides are
applied to the thousands words only, before the thousand-word is appended,
and never to the remainder words. -/
def moneyToWordsSpecClaim (nw : ℤ → String) (amount : ℚ) : String :=
  let q := quantizeMoney amount
  let totalKop := pyInt (q * 100)
  let hryv := Int.ediv totalKop 100
  let kop := Int.emod totalKop 100
  let hryvWords :=
    if hryv = 0 then "нуль"
    else
      let thousands := Int.ediv hryv 1000
      let rest := Int.emod hryv 1000
      joinSpace
        ((if thousands ≠ 0 then
            [subWord "два" "дві" (subWord "один" "одна" (nw thousands)),
              formFor thousands "тисяча" "тисячі" "тисяч"]
          else []) ++
         (if rest ≠ 0 then [nw rest] else []))
  hryvWords ++ " грн. " ++ twoDigit kop ++ " коп."

/-- The amended claim, written from its words: decompose the quantized
amount into its whole-unit part `⌊q⌋` and two-digit cents part, express the
whole part as thousands words, agreement-chosen thousands noun and
remainder words, and apply the feminine overrides to the entire whole-unit
words string after assembly. -/
def moneyToWordsAmendedSpec (nw : ℤ → String) (amount : ℚ) : String :=
  let q := quantizeMoney amount
  let whole : ℤ := ⌊q⌋
  let cents : ℤ := ⌊q * 100⌋ - 100 * whole
  let wholeWords :=
    if whole = 0 then "нуль"
    else
      let thousands := Int.ediv whole 1000
      let rest := Int.emod whole 1000
      joinSpace
        ((if thousands ≠ 0 then [nw thousands, formFor thousands "тисяча" "тисячі" "тисяч"]
          else []) ++
         (if rest ≠ 0 then [nw rest] else []))
  subWord "два" "дві" (subWord "один" "одна" wholeWords) ++
    " грн. " ++ twoDigit cents ++ " коп."

/-- The spec's `tokenize_owners`, written from its words: split the raw
text on newlines and commas, trim each piece, drop the empty ones,
preserving order. -/
def tokenizeOwnersSpec (raw : String) : List String :=
  (splitOnPred (fun c => c = '\n' || c = ',') raw.data).filterMap
    (fun tok =>
      let t := pyStripList tok
      if t.isEmpty then none else some (⟨t⟩ : String))

theorem getLastD_eq_getLast {α : Type} (l : List α) (d : α) (h : l ≠ []) :
    l.getLastD d = l.getLast h := by
  rw [List.getLastD_eq_getLast?, List.getLast?_eq_getLast l h]
  rfl

theorem dropLast_sum_add_getLastD {l : List ℚ} (h : l ≠ []) :
    l.dropLast.sum + l.getLastD 0 = l.sum := by
  conv_rhs => rw [← List.dropLast_append_getLast h]
  rw [List.sum_append, getLastD_eq_getLast l 0 h]
  simp

theorem getLastD_mem {α : Type} {l : List α} (d : α) (h : l ≠ []) :
    l.getLastD d ∈ l := by
  rw [getLastD_eq_getLast l d h]
  exact List.getLast_mem h

theorem proportionalSums_cent {Dept : Type} (owners : List (String × ℕ × Dept))
    (up : ℚ) : ∀ x ∈ proportionalSums owners up, isCent x := by
  intro x hx
  obtain ⟨o, _, rfl⟩ := List.mem_map.mp hx
  exact quantizeMoney_isCent _

theorem proportionalSums_sum_cent {Dept : Type} (owners : List (String × ℕ × Dept))
    (up : ℚ) : isCent (proportionalSums owners up).sum :=
  isCent_sum (proportionalSums_cent owners up)

/-- With the adjustment enabled, `_calculate_owner_amounts` on a nonempty
owner list: if the proportional total already matches the quantized price
the shares are returned unchanged; otherwise the whole difference is folded
into the last share (the outer `quantize_money` is the identity there,
since everything involved is a whole number of cents). -/
theorem calculateOwnerAmounts_adjusted {Dept : Type}
    (owners : List (String × ℕ × Dept)) (up price : ℚ) :
    (proportionalSums owners up).sum = quantizeMoney price →
      calculateOwnerAmounts owners up price true = proportionalSums owners up := by
  intro heq
  unfold calculateOwnerAmounts
  simp only [heq, ne_eq, not_true_eq_false, and_false, if_false]

theorem calculateOwnerAmounts_adjusted_ne {Dept : Type}
    (owners : List (String × ℕ × Dept)) (up price : ℚ) (h : owners ≠ []) :
    (proportionalSums owners up).sum ≠ quantizeMoney price →
      calculateOwnerAmounts owners up price true =
        (proportionalSums owners up).dropLast ++
          [(proportionalSums owners up).getLastD 0 +
            (quantizeMoney price - (proportionalSums owners up).sum)] := by
  intro hne
  have hpre : proportionalSums owners up ≠ [] := by
    simp [proportionalSums, h]
  have hlast : isCent ((proportionalSums owners up).getLastD 0) :=
    proportionalSums_cent owners up _ (getLastD_mem 0 hpre)
  have hfix : isCent
      (quantizeMoney price - (proportionalSums owners up).sum) :=
    isCent_sub (quantizeMoney_isCent price) (proportionalSums_sum_cent owners up)
  unfold calculateOwnerAmounts
  simp only [ne_eq, hne, not_false_eq_true, and_true, if_true, true_and, if_pos,
    quantizeMoney_add_cancel hlast hfix]

theorem calculateOwnerAmounts_sum_eq {Dept : Type}
    (owners : List (String × ℕ × Dept)) (up price : ℚ) (h : owners ≠ []) :
    (calculateOwnerAmounts owners up price true).sum = quantizeMoney price := by
  have hpre : proportionalSums owners up ≠ [] := by
    simp [proportionalSums, h]
  by_cases heq : (proportionalSums owners up).sum = quantizeMoney price
  · rw [calculateOwnerAmounts_adjusted owners up price heq, heq]
  · rw [calculateOwnerAmounts_adjusted_ne owners up price h heq]
    rw [List.sum_append, List.sum_cons, List.sum_nil, add_zero]
    have hd := dropLast_sum_add_getLastD hpre
    linarith

/-- Claim C1: with `ALLOW_ROUNDING_ADJUST = true`, for every row whose
validation succeeded and that resolved at least one owner, the produced
per-owner sums total exactly `quantize_money(price)`; when the
pre-adjustment proportional sums differ from the quantized price, the whole
discrepancy is added to the last resolved owner's sum in token order and
every earlier sum is returned unchanged. -/
theorem C1_reconciliation {Dept : Type} (owners : List (String × ℕ × Dept))
    (up price : ℚ) (h : owners ≠ []) :
    (calculateOwnerAmounts owners up price ALLOW_ROUNDING_ADJUST).sum = quantizeMoney price ∧
    ((proportionalSums owners up).sum ≠ quantizeMoney price →
      calculateOwnerAmounts owners up price ALLOW_ROUNDING_ADJUST =
        (proportionalSums owners up).dropLast ++
          [(proportionalSums owners up).getLastD 0 +
            (quantizeMoney price - (proportionalSums owners up).sum)]) ∧
    ((proportionalSums owners up).sum = quantizeMoney price →
      calculateOwnerAmounts owners up price ALLOW_ROUNDING_ADJUST =
        proportionalSums owners up) := by
  rw [show ALLOW_ROUNDING_ADJUST = true from rfl]
  exact ⟨calculateOwnerAmounts_sum_eq owners up price h,
    calculateOwnerAmounts_adjusted_ne owners up price h,
    calculateOwnerAmounts_adjusted owners up price⟩

def ownersDemoC1 : List (String × ℕ × String) :=
  [("A", 1, "dept"), ("B", 1, "dept"), ("C", 1, "dept")]

theorem C1_reconciliation_witness :
    (calculateOwnerAmounts ownersDemoC1 (333/100) 10 ALLOW_ROUNDING_ADJUST).sum =
        quantizeMoney 10 ∧
      calculateOwnerAmounts ownersDemoC1 (333/100) 10 ALLOW_ROUNDING_ADJUST =
        [333/100, 333/100, 334/100] := by
  refine ⟨(C1_reconciliation ownersDemoC1 (333/100) 10 (by decide)).1, ?_⟩
  exact of_decide_eq_true (by with_unfolding_all rfl)

theorem resolveOwners_fst {Dept : Type} (depts : String → Option Dept)
    (infos : List (String × Option ℕ × Bool)) :
    (resolveOwnersWithDepartments depts infos).1 =
      infos.filterMap
        (fun t => (depts (pyStrip t.1)).map (fun d => (pyStrip t.1, t.2.1.getD 0, d))) := by
  induction infos with
  | nil => rfl
  | cons t rest ih =>
    obtain ⟨base, num, ex⟩ := t
    cases hd : depts (pyStrip base) with
    | none => simp [resolveOwnersWithDepartments, hd, ih, List.filterMap_cons]
    | some d => simp [resolveOwnersWithDepartments, hd, ih, List.filterMap_cons]

theorem resolveOwners_snd {Dept : Type} (depts : String → Option Dept)
    (infos : List (String × Option ℕ × Bool)) :
    (resolveOwnersWithDepartments depts infos).2 =
      (infos.filter (fun t => (depts (pyStrip t.1)).isNone)).length := by
  induction infos with
  | nil => rfl
  | cons t rest ih =>
    obtain ⟨base, num, ex⟩ := t
    cases hd : depts (pyStrip base) with
    | none => simp [resolveOwnersWithDepartments, hd, ih]
    | some d => simp [resolveOwnersWithDepartments, hd, ih]

theorem addItemStats_rowsProcessed (st : Stats) (v : ℚ) :
    (addItemStats st v).rowsProcessed = st.rowsProcessed := rfl

theorem allocateAll_stats {Dept : Type} (data : AssetData)
    (pairs : List ((String × ℕ × Dept) × ℚ)) (st : PState Dept) :
    (allocateAll data st pairs).2.rowsProcessed = st.2.rowsProcessed ∧
    (allocateAll data st pairs).2.ownersSkipped = st.2.ownersSkipped ∧
    (allocateAll data st pairs).2.rowsSkipped = st.2.rowsSkipped := by
  induction pairs generalizing st with
  | nil => exact ⟨rfl, rfl, rfl⟩
  | cons p rest ih =>
    have hstep : allocateAll data st (p :: rest) =
        allocateAll data
          (addToOwner st.1 p.1.1 p.1.2.2 (mkItem data p.1.2.1 p.2), addItemStats st.2 p.2)
          rest := rfl
    rw [hstep]
    exact (ih _)

theorem applyRow_allocated_stats {Dept : Type} (st : PState Dept) (data : AssetData)
    (owners : List (String × ℕ × Dept)) (sums : List ℚ) (k : ℕ) :
    (applyRow st (.allocated data owners sums k)).2.rowsProcessed = st.2.rowsProcessed + 1 ∧
    (applyRow st (.allocated data owners sums k)).2.ownersSkipped = st.2.ownersSkipped + k := by
  have h := allocateAll_stats data (owners.zip sums) st
  unfold applyRow
  exact ⟨by simp [h.1], by simp [h.2.1]⟩

theorem calculateOwnerAmounts_dropLast {Dept : Type}
    (owners : List (String × ℕ × Dept)) (up price : ℚ) (h : owners ≠ []) :
    (calculateOwnerAmounts owners up price true).dropLast =
      (proportionalSums owners up).dropLast := by
  by_cases heq : (proportionalSums owners up).sum = quantizeMoney price
  · rw [calculateOwnerAmounts_adjusted owners up price heq]
  · rw [calculateOwnerAmounts_adjusted_ne owners up price h heq, List.dropLast_concat]

theorem getLastQ_of_ne {l : List ℚ} (h : l ≠ []) :
    l.getLast? = some (l.getLastD 0) := by
  rw [getLastD_eq_getLast l 0 h, List.getLast?_eq_getLast l h]

theorem calculateOwnerAmounts_getLast {Dept : Type}
    (owners : List (String × ℕ × Dept)) (up price : ℚ) (h : owners ≠ []) :
    (calculateOwnerAmounts owners up price true).getLast? =
      some (quantizeMoney price - (proportionalSums owners up).dropLast.sum) := by
  have hpre : proportionalSums owners up ≠ [] := by
    simp [proportionalSums, h]
  have hd := dropLast_sum_add_getLastD hpre
  by_cases heq : (proportionalSums owners up).sum = quantizeMoney price
  · rw [calculateOwnerAmounts_adjusted owners up price heq, getLastQ_of_ne hpre]
    congr 1
    linarith
  · rw [calculateOwnerAmounts_adjusted_ne owners up price h heq, List.getLast?_concat]
    congr 1
    linarith

def deptsDemo : String → Option String := fun k => if k = "A" then some "deptA" else none

def valsC2 : List (List String) :=
  [["hdr"], ["", "", "Printer", "", "inv1", "PC", "4", "", "40", "A-2,ZZZ-2", "TRUE"]]

/-- Claim C2 counterexample: quantity 4, price 40.00, owners `A-2,ZZZ-2`
with `ZZZ` unknown.  `A` resolves with its explicit quantity 2, `ZZZ` is
dropped with `owners_skipped = 1` and the row is processed — but `A`'s
LineItem sum is 40.00, the whole quantized row price, not the proportional
`quantize_money(10.00 * 2) = 20.00` the claim requires: the reconciliation
step absorbs the dropped owner's entire share into the last resolved
owner. -/
theorem C2_counterexample :
    ((parseAssetsApi deptsDemo valsC2).1.map
        (fun e => (e.1, e.2.items.map (fun it => (it.qty, it.sum))))) =
      [("A", [(2, (40 : ℚ))])] ∧
    (40 : ℚ) ≠ quantizeMoney ((10 : ℚ) * 2) ∧
    (parseAssetsApi deptsDemo valsC2).2.ownersSkipped = 1 ∧
    (parseAssetsApi deptsDemo valsC2).2.rowsProcessed = 1 :=
  of_decide_eq_true (by with_unfolding_all rfl)

/-- Claim C2 (amended): for a validated row with explicit owner quantities
in which some token's code is unresolvable but at least one owner resolves,
the resolved owners keep their explicit quantities in token order, each
unresolved entry is dropped and counted in `owners_skipped`, every resolved
owner except the last receives the proportional sum
`quantize_money(unit_price * qty_i)`, the last resolved owner receives the
quantized row price minus the earlier owners' proportional sums (absorbing
the dropped owners' shares as well as rounding error), and the row counts
as processed. -/
theorem C2_partial_resolution {Dept : Type} (depts : String → Option Dept)
    (tokens : List String) (qty : ℕ) (infos : List (String × Option ℕ × Bool))
    (up price : ℚ)
    (hv : validateAndParseOwnerTokens tokens qty = some infos)
    (hres : (resolveOwnersWithDepartments depts infos).1 ≠ [])
    (hk : 1 ≤ (resolveOwnersWithDepartments depts infos).2) :
    (resolveOwnersWithDepartments depts infos).1 =
      infos.filterMap
        (fun t => (depts (pyStrip t.1)).map (fun d => (pyStrip t.1, t.2.1.getD 0, d))) ∧
    (resolveOwnersWithDepartments depts infos).2 =
      (infos.filter (fun t => (depts (pyStrip t.1)).isNone)).length ∧
    (calculateOwnerAmounts (resolveOwnersWithDepartments depts infos).1 up price
        ALLOW_ROUNDING_ADJUST).dropLast =
      (proportionalSums (resolveOwnersWithDepartments depts infos).1 up).dropLast ∧
    (calculateOwnerAmounts (resolveOwnersWithDepartments depts infos).1 up price
        ALLOW_ROUNDING_ADJUST).sum = quantizeMoney price ∧
    (calculateOwnerAmounts (resolveOwnersWithDepartments depts infos).1 up price
        ALLOW_ROUNDING_ADJUST).getLast? =
      some (quantizeMoney price -
        (proportionalSums (resolveOwnersWithDepartments depts infos).1 up).dropLast.sum) ∧
    (∀ (st : PState Dept) (sums : List ℚ) (data : AssetData) (k : ℕ),
      (applyRow st (.allocated data (resolveOwnersWithDepartments depts infos).1 sums k)).2.rowsProcessed =
        st.2.rowsProcessed + 1) := by
  rw [show ALLOW_ROUNDING_ADJUST = true from rfl]
  refine ⟨resolveOwners_fst depts infos, resolveOwners_snd depts infos,
    calculateOwnerAmounts_dropLast _ up price hres,
    calculateOwnerAmounts_sum_eq _ up price hres,
    calculateOwnerAmounts_getLast _ up price hres,
    fun st sums data k => (applyRow_allocated_stats st data _ sums k).1⟩

def infosC2 : List (String × Option ℕ × Bool) :=
  [("A", some 2, true), ("ZZZ", some 2, true)]

theorem C2_partial_resolution_witness :
    (calculateOwnerAmounts (resolveOwnersWithDepartments deptsDemo infosC2).1 10 40
        ALLOW_ROUNDING_ADJUST).sum = quantizeMoney 40 ∧
    (resolveOwnersWithDepartments deptsDemo infosC2).2 = 1 := by
  have h := C2_partial_resolution deptsDemo ["A-2", "ZZZ-2"] 4 infosC2 10 40
    (of_decide_eq_true (by with_unfolding_all rfl))
    (of_decide_eq_true (by with_unfolding_all rfl))
    (of_decide_eq_true (by with_unfolding_all rfl))
  exact ⟨h.2.2.2.1, of_decide_eq_true (by with_unfolding_all rfl)⟩

theorem validated_qty_sum (tokens : List String) (qty : ℕ)
    (infos : List (String × Option ℕ × Bool))
    (hv : validateAndParseOwnerTokens tokens qty = some infos) :
    (infos.map (fun t => t.2.1.getD 0)).sum = qty := by
  unfold validateAndParseOwnerTokens at hv
  by_cases hex : (tokens.map parseOwnerToken).any (fun t => t.2.2)
  · rw [if_pos hex] at hv
    by_cases hok : validateExplicitOwners (tokens.map parseOwnerToken) qty
    · rw [if_pos hok] at hv
      injection hv with hv
      subst hv
      have hsum := (Bool.and_eq_true _ _).mp hok
      exact beq_iff_eq.mp hsum.2
    · rw [if_neg hok] at hv
      exact absurd hv (by simp)
  · rw [if_neg hex] at hv
    by_cases hone : validateImplicitOwner (tokens.map parseOwnerToken)
    · rw [if_pos hone] at hv
      injection hv with hv
      subst hv
      simp
    · rw [if_neg hone] at hv
      exact absurd hv (by simp)

theorem resolveOwners_qtys {Dept : Type} (depts : String → Option Dept)
    (infos : List (String × Option ℕ × Bool)) :
    (resolveOwnersWithDepartments depts infos).1.map (fun o => o.2.1) =
      (infos.filter (fun t => (depts (pyStrip t.1)).isSome)).map
        (fun t => t.2.1.getD 0) := by
  induction infos with
  | nil => rfl
  | cons t rest ih =>
    obtain ⟨base, num, ex⟩ := t
    cases hd : depts (pyStrip base) with
    | none => simp [resolveOwnersWithDepartments, hd, ih]
    | some d => simp [resolveOwnersWithDepartments, hd, ih]

def valsC3 : List (List String) :=
  [["hdr"], ["", "", "Printer", "", "inv1", "PC", "4", "", "40", "A-0,ZZZ-4", "TRUE"]]

/-- Claim C3 counterexample: quantity 4, owners `A-0,ZZZ-4` with `ZZZ`
unknown passes validation (the explicit quantities 0 + 4 sum to 4), so the
row produces exactly one LineItem, for `A`, with allocated quantity 0 — not
a positive integer — and the row's LineItem quantities sum to 0, not to the
row quantity 4. -/
theorem C3_counterexample :
    ((parseAssetsApi deptsDemo valsC3).1.map
        (fun e => (e.1, e.2.items.map Item.qty))) = [("A", [0])] ∧
    ¬ (1 ≤ (0 : ℕ)) ∧ (0 : ℕ) ≠ 4 :=
  of_decide_eq_true (by with_unfolding_all rfl)

/-- Claim C3 (amended): every LineItem's allocated quantity is the (non-
negative) explicit quantity of its owner token — an explicit `CODE-0` token
is accepted whenever the quantities still sum to the row quantity, so a
zero-quantity LineItem is possible; the quantities of the LineItems a row
produces are those of its resolved tokens in order, and their sum equals
the row's quantity exactly when every token resolves against the
directory. -/
theorem C3_quantity_conservation {Dept : Type} (depts : String → Option Dept)
    (tokens : List String) (qty : ℕ) (infos : List (String × Option ℕ × Bool))
    (hv : validateAndParseOwnerTokens tokens qty = some infos) :
    (resolveOwnersWithDepartments depts infos).1.map (fun o => o.2.1) =
      (infos.filter (fun t => (depts (pyStrip t.1)).isSome)).map
        (fun t => t.2.1.getD 0) ∧
    ((∀ t ∈ infos, (depts (pyStrip t.1)).isSome) →
      ((resolveOwnersWithDepartments depts infos).1.map (fun o => o.2.1)).sum = qty) := by
  refine ⟨resolveOwners_qtys depts infos, fun hall => ?_⟩
  rw [resolveOwners_qtys depts infos]
  have hfilter : infos.filter (fun t => (depts (pyStrip t.1)).isSome) = infos :=
    List.filter_eq_self.mpr hall
  rw [hfilter]
  exact validated_qty_sum tokens qty infos hv

def infosC3 : List (String × Option ℕ × Bool) :=
  [("A", some 0, true), ("ZZZ", some 4, true)]

theorem C3_quantity_conservation_witness :
    (resolveOwnersWithDepartments deptsDemo infosC3).1.map (fun o => o.2.1) = [0] := by
  have h := (C3_quantity_conservation deptsDemo ["A-0", "ZZZ-4"] 4 infosC3
    (of_decide_eq_true (by with_unfolding_all rfl))).1
  rw [h]
  exact of_decide_eq_true (by with_unfolding_all rfl)

theorem validate_mixed_none (tokens : List String) (qty : ℕ)
    (hmixAny : (tokens.map parseOwnerToken).any (fun t => t.2.2) = true)
    (hmixAll : (tokens.map parseOwnerToken).all (fun t => t.2.2) = false) :
    validateAndParseOwnerTokens tokens qty = none := by
  unfold validateAndParseOwnerTokens validateExplicitOwners
  rw [if_pos hmixAny, hmixAll, Bool.false_and]
  simp

/-- Claim C4: a row whose owner tokens mix the explicit `CODE-N` form with
bare implicit codes is rejected atomically — token validation fails, the
row-loop pass returns a skip, and folding that skip into the batch state
leaves the per-owner map (and every ledger and total in it) unchanged while
incrementing `rows_skipped` by exactly 1. -/
theorem C4_mixed_spec_rejected {Dept : Type} (depts : String → Option Dept)
    (row : List String) (data : AssetData) (tokens : List String)
    (hb : row.any (fun c => pyStrip c ≠ "") = true)
    (hf : pyUpper (pyStrip (safeGet row API_COL_GENERATE_FLAG)) = "TRUE")
    (he : extractAssetRowData row = some data)
    (ht : parseOwnerTokensFromString data.ownersRaw = tokens)
    (hmixAny : (tokens.map parseOwnerToken).any (fun t => t.2.2) = true)
    (hmixAll : (tokens.map parseOwnerToken).all (fun t => t.2.2) = false) :
    validateAndParseOwnerTokens tokens data.qty = none ∧
    processRowApi depts row = .skipped 0 ∧
    (∀ st : PState Dept, applyRow st (.skipped 0) =
      (st.1, { st.2 with rowsSkipped := st.2.rowsSkipped + 1 })) := by
  have hmix := validate_mixed_none tokens data.qty hmixAny hmixAll
  have hne : tokens.isEmpty = false := by
    cases tokens with
    | nil => simp at hmixAny
    | cons a l => rfl
  have hb3 : ¬ ∀ x ∈ row, pyStrip x = "" := by
    simp only [List.any_eq_true, decide_eq_true_eq] at hb
    obtain ⟨c, hc, hcne⟩ := hb
    exact fun hall => hcne (hall c hc)
  refine ⟨hmix, ?_, ?_⟩
  · simp [processRowApi, hb3, hf, he, ht, hne, hmix]
  · intro st
    simp [applyRow]

def rowC4 : List String :=
  ["", "", "Printer", "", "inv1", "PC", "4", "", "40", "A-2,B", "TRUE"]

def dataC4 : AssetData :=
  ⟨"Printer", "inv1", "pc", 4, 40, 10, "A-2,B"⟩

theorem C4_mixed_spec_rejected_witness :
    processRowApi deptsDemo rowC4 = .skipped 0 :=
  (C4_mixed_spec_rejected deptsDemo rowC4 dataC4 ["A-2", "B"]
    (of_decide_eq_true (by with_unfolding_all rfl))
    (of_decide_eq_true (by with_unfolding_all rfl))
    (of_decide_eq_true (by with_unfolding_all rfl))
    (of_decide_eq_true (by with_unfolding_all rfl))
    (of_decide_eq_true (by with_unfolding_all rfl))
    (of_decide_eq_true (by with_unfolding_all rfl))).2.1

theorem calculateOwnerAmounts_single {Dept : Type} (o : String × ℕ × Dept)
    (up price : ℚ) :
    calculateOwnerAmounts [o] up price true = [quantizeMoney price] := by
  by_cases heq : (proportionalSums [o] up).sum = quantizeMoney price
  · rw [calculateOwnerAmounts_adjusted [o] up price heq]
    have : (proportionalSums [o] up).sum = quantizeMoney (up * (o.2.1 : ℚ)) := by
      simp [proportionalSums]
    rw [← heq, this]
    simp [proportionalSums]
  · rw [calculateOwnerAmounts_adjusted_ne [o] up price (by simp) heq]
    simp [proportionalSums]

/-- Claim C5: when no owner token is explicit, a single token receives the
whole row quantity (and, when it resolves, its single reconciled sum is
exactly the quantized row price); any other token count fails validation
and the row is skipped with `rows_skipped` incremented and the per-owner
map untouched. -/
theorem C5_implicit_owner {Dept : Type} (depts : String → Option Dept)
    (tokens : List String) (qty : ℕ) (up price : ℚ)
    (hni : (tokens.map parseOwnerToken).any (fun t => t.2.2) = false) :
    (∀ t, tokens = [t] →
      validateAndParseOwnerTokens tokens qty =
        some [((parseOwnerToken t).1, some qty, true)] ∧
      ∀ d, depts (pyStrip (parseOwnerToken t).1) = some d →
        (resolveOwnersWithDepartments depts [((parseOwnerToken t).1, some qty, true)]).1 =
          [(pyStrip (parseOwnerToken t).1, qty, d)] ∧
        calculateOwnerAmounts [(pyStrip (parseOwnerToken t).1, qty, d)] up price
          ALLOW_ROUNDING_ADJUST = [quantizeMoney price]) ∧
    (tokens.length ≠ 1 →
      validateAndParseOwnerTokens tokens qty = none ∧
      (∀ st : PState Dept, applyRow st (.skipped 0) =
        (st.1, { st.2 with rowsSkipped := st.2.rowsSkipped + 1 }))) := by
  constructor
  · rintro t rfl
    have himp : (parseOwnerToken t).2.2 = false := by simpa using hni
    constructor
    · simp [validateAndParseOwnerTokens, himp, validateImplicitOwner]
    · intro d hd
      constructor
      · simp [resolveOwnersWithDepartments, hd]
      · rw [show ALLOW_ROUNDING_ADJUST = true from rfl]
        exact calculateOwnerAmounts_single _ up price
  · intro hlen
    constructor
    · unfold validateAndParseOwnerTokens
      rw [if_neg (by simp [hni])]
      rw [if_neg (by simp [validateImplicitOwner, hlen])]
    · intro st
      simp [applyRow]

theorem C5_implicit_owner_witness :
    validateAndParseOwnerTokens ["A"] 5 = some [("A", some 5, true)] ∧
    calculateOwnerAmounts [("A", 5, "deptA")] 10 50 ALLOW_ROUNDING_ADJUST =
      [quantizeMoney 50] := by
  have h := C5_implicit_owner deptsDemo ["A"] 5 10 50
    (of_decide_eq_true (by with_unfolding_all rfl))
  have h1 := h.1 "A" rfl
  have h2 := (h1.2 "deptA" (of_decide_eq_true (by with_unfolding_all rfl))).2
  have hbase : (parseOwnerToken "A").1 = "A" :=
    of_decide_eq_true (by with_unfolding_all rfl)
  have hstrip : pyStrip "A" = "A" :=
    of_decide_eq_true (by with_unfolding_all rfl)
  constructor
  · rw [← hbase]
    exact h1.1
  · rw [← hstrip, ← hbase]
    exact h2

/-- I4 for a single ledger: the running totals match the item list. -/
def ledgerOk {Dept : Type} (l : Ledger Dept) : Prop :=
  l.totQty = (l.items.map Item.qty).sum ∧ l.totSum = (l.items.map Item.sum).sum

/-- The aggregation invariant: every ledger's totals match its items, and
the batch counters match the whole per-owner map. -/
def stateOk {Dept : Type} (s : PState Dept) : Prop :=
  (∀ e ∈ s.1, ledgerOk e.2) ∧
  s.2.totalItemsInActs = (s.1.map (fun e => e.2.items.length)).sum ∧
  s.2.totalValueGenerated = (s.1.map (fun e => (e.2.items.map Item.sum).sum)).sum

theorem addToOwner_ledgers {Dept : Type} {po : List (String × Ledger Dept)}
    (h : ∀ e ∈ po, ledgerOk e.2) (key : String) (dept : Dept) (it : Item) :
    ∀ e ∈ addToOwner po key dept it, ledgerOk e.2 := by
  induction po with
  | nil =>
    intro e he
    simp only [addToOwner, List.mem_singleton] at he
    subst he
    constructor <;> simp [ledgerOk]
  | cons p rest ih =>
    obtain ⟨k, l⟩ := p
    intro e he
    by_cases hk : k = key
    · simp only [addToOwner, if_pos hk, List.mem_cons] at he
      rcases he with he | he
      · subst he
        obtain ⟨hq, hs⟩ := h (k, l) (by simp)
        constructor
        · simp only [pushItem, List.map_append, List.sum_append]
          simp only [List.map_cons, List.map_nil, List.sum_cons, List.sum_nil, add_zero]
          exact congrArg (· + it.qty) hq
        · simp only [pushItem, List.map_append, List.sum_append]
          simp only [List.map_cons, List.map_nil, List.sum_cons, List.sum_nil, add_zero]
          exact congrArg (· + it.sum) hs
      · exact h e (by simp [he])
    · simp only [addToOwner, if_neg hk, List.mem_cons] at he
      rcases he with he | he
      · exact h e (by simp [he])
      · exact ih (fun x hx => h x (by simp [hx])) e he

theorem addToOwner_len_sum {Dept : Type} (po : List (String × Ledger Dept))
    (key : String) (dept : Dept) (it : Item) :
    ((addToOwner po key dept it).map (fun e => e.2.items.length)).sum =
      (po.map (fun e => e.2.items.length)).sum + 1 := by
  induction po with
  | nil => simp [addToOwner]
  | cons p rest ih =>
    obtain ⟨k, l⟩ := p
    by_cases hk : k = key
    · simp [addToOwner, if_pos hk, pushItem]
      ring
    · simp [addToOwner, if_neg hk, ih]
      ring

theorem addToOwner_val_sum {Dept : Type} (po : List (String × Ledger Dept))
    (key : String) (dept : Dept) (it : Item) :
    ((addToOwner po key dept it).map (fun e => (e.2.items.map Item.sum).sum)).sum =
      (po.map (fun e => (e.2.items.map Item.sum).sum)).sum + it.sum := by
  induction po with
  | nil => simp [addToOwner]
  | cons p rest ih =>
    obtain ⟨k, l⟩ := p
    by_cases hk : k = key
    · simp [addToOwner, if_pos hk, pushItem, List.sum_append]
      ring
    · simp [addToOwner, if_neg hk, ih]
      ring

theorem stateOk_record {Dept : Type} {po : List (String × Ledger Dept)} {st : Stats}
    (h : stateOk (po, st)) (key : String) (dept : Dept) (it : Item) :
    stateOk (addToOwner po key dept it, addItemStats st it.sum) := by
  obtain ⟨h1, h2, h3⟩ := h
  refine ⟨addToOwner_ledgers h1 key dept it, ?_, ?_⟩
  · show st.totalItemsInActs + 1 = _
    rw [addToOwner_len_sum, ← h2]
  · show st.totalValueGenerated + it.sum = _
    rw [addToOwner_val_sum, ← h3]

theorem stateOk_allocateAll {Dept : Type} (data : AssetData)
    (pairs : List ((String × ℕ × Dept) × ℚ)) (st : PState Dept)
    (h : stateOk st) : stateOk (allocateAll data st pairs) := by
  induction pairs generalizing st with
  | nil => exact h
  | cons p rest ih =>
    have hstep : allocateAll data st (p :: rest) =
        allocateAll data
          (addToOwner st.1 p.1.1 p.1.2.2 (mkItem data p.1.2.1 p.2), addItemStats st.2 p.2)
          rest := rfl
    rw [hstep]
    refine ih _ ?_
    have h2 : stateOk (st.1, st.2) := h
    have := stateOk_record h2 p.1.1 p.1.2.2 (mkItem data p.1.2.1 p.2)
    simpa [mkItem] using this

theorem stateOk_applyRow {Dept : Type} (st : PState Dept) (r : RowResult Dept)
    (h : stateOk st) : stateOk (applyRow st r) := by
  cases r with
  | blank => exact h
  | skipped k => exact ⟨h.1, h.2.1, h.2.2⟩
  | allocated data owners sums k =>
    have ha := stateOk_allocateAll data (owners.zip sums) st h
    exact ⟨ha.1, ha.2.1, ha.2.2⟩

theorem stateOk_applyRows {Dept : Type} (pr : List String → RowResult Dept)
    (rows : List (List String)) (st : PState Dept) (h : stateOk st) :
    stateOk (applyRows pr rows st) := by
  induction rows generalizing st with
  | nil => exact h
  | cons row rest ih => exact ih _ (stateOk_applyRow st (pr row) h)

theorem stateOk_init {Dept : Type} : stateOk (initState : PState Dept) := by
  refine ⟨by simp [initState], rfl, rfl⟩

/-- Claim C7: after `parse_assets` completes — and already after each
processed row — every per-owner ledger's `tot_qty`/`tot_sum` equal the sums
of its items' `qty`/`sum` fields, and the batch counters
`total_items_in_acts` / `total_value_generated` equal the total number of
LineItems and the total of all LineItem sums across all owners. -/
theorem C7_aggregation_invariant {Dept : Type} (depts : String → Option Dept)
    (vals : List (List String)) (n : ℕ) :
    stateOk (parseAssetsApi depts vals) ∧
    stateOk (applyRows (processRowApi depts) ((vals.drop 1).take n) initState) := by
  constructor
  · unfold parseAssetsApi
    by_cases hlen : vals.length < 2
    · rw [if_pos hlen]
      exact stateOk_init
    · rw [if_neg hlen]
      exact stateOk_applyRows _ _ _ stateOk_init
  · exact stateOk_applyRows _ _ _ stateOk_init

theorem splitOnChar_ne_nil (sep : Char) (cs : List Char) : splitOnChar sep cs ≠ [] := by
  cases cs with
  | nil => simp [splitOnChar]
  | cons c cs =>
    unfold splitOnChar
    by_cases h : c = sep
    · simp [h]
    · simp only [if_neg h]
      cases splitOnChar sep cs <;> simp

theorem splitOnPred_ne_nil (p : Char → Bool) (cs : List Char) : splitOnPred p cs ≠ [] := by
  cases cs with
  | nil => simp [splitOnPred]
  | cons c cs =>
    unfold splitOnPred
    by_cases h : p c
    · simp [h]
    · simp only [if_neg h]
      cases splitOnPred p cs <;> simp

theorem splitOnPred_eq_flatMap (cs : List Char) :
    splitOnPred (fun c => c = '\n' || c = ',') cs =
      (splitOnChar '\n' cs).flatMap (splitOnChar ',') := by
  induction cs with
  | nil => rfl
  | cons c cs ih =>
    by_cases h1 : c = '\n'
    · subst h1
      simp only [splitOnPred, splitOnChar, ih]
      simp [splitOnChar]
    · by_cases h2 : c = ','
      · subst h2
        obtain ⟨t, ts, ht⟩ : ∃ t ts, splitOnChar '\n' cs = t :: ts := by
          cases hc : splitOnChar '\n' cs with
          | nil => exact absurd hc (splitOnChar_ne_nil '\n' cs)
          | cons t ts => exact ⟨t, ts, rfl⟩
        simp only [splitOnPred, splitOnChar, ih, ht]
        simp only [if_neg h1, List.flatMap_cons]
        simp [splitOnChar]
      · obtain ⟨t, ts, ht⟩ : ∃ t ts, splitOnChar '\n' cs = t :: ts := by
          cases hc : splitOnChar '\n' cs with
          | nil => exact absurd hc (splitOnChar_ne_nil '\n' cs)
          | cons t ts => exact ⟨t, ts, rfl⟩
        obtain ⟨u, us, hu⟩ : ∃ u us, splitOnChar ',' t = u :: us := by
          cases hc : splitOnChar ',' t with
          | nil => exact absurd hc (splitOnChar_ne_nil ',' t)
          | cons u us => exact ⟨u, us, rfl⟩
        have hpc : (c = '\n' || c = ',') = false := by
          simp [h1, h2]
        simp only [splitOnPred, splitOnChar, hpc, if_neg h1, if_neg h2, ih, ht,
          List.flatMap_cons, hu]
        simp [splitOnChar, if_neg h2, hu]

theorem filterMap_flatMap_split {α β γ : Type} (l : List α) (f : α → List β)
    (g : β → Option γ) :
    (l.flatMap f).filterMap g = l.flatMap (fun a => (f a).filterMap g) := by
  induction l with
  | nil => rfl
  | cons a t ih => simp [List.flatMap_cons, List.filterMap_append, ih]

/-- Claim C9 (amended): the `google_api` tokenizer
`_parse_owner_tokens_from_string` splits on both newlines and commas, trims
each token, drops empty tokens and preserves order — it agrees with the
spec's one-pass `tokenize_owners` on every input.  (The inline tokenizer of
`main.py` / `document_generator.py` splits on commas only; see the
counterexample.) -/
theorem C9_tokenizer_spec (raw : String) :
    parseOwnerTokensFromString raw = tokenizeOwnersSpec raw := by
  unfold parseOwnerTokensFromString tokenizeOwnersSpec
  rw [splitOnPred_eq_flatMap, filterMap_flatMap_split]

/-- Claim C9 counterexample: the `main.py` tokenizer (cited by the claim)
does not split on newlines: on `"A\nB"` it returns the single token
`"A\nB"`, while splitting on both newlines and commas yields
`["A", "B"]`. -/
theorem C9_counterexample :
    tokenizeOwnersMain "A\nB" = ["A\nB"] ∧
    tokenizeOwnersSpec "A\nB" = ["A", "B"] ∧
    tokenizeOwnersMain "A\nB" ≠ tokenizeOwnersSpec "A\nB" :=
  of_decide_eq_true (by with_unfolding_all rfl)

theorem dictGet_dictInsert {α : Type} (acc : List (String × α)) (k : String) (v : α) :
    dictGet (dictInsert acc k v) k = some v := by
  induction acc with
  | nil => simp [dictInsert, dictGet]
  | cons p rest ih =>
    obtain ⟨k1, v1⟩ := p
    by_cases hk : k1 = k
    · simp [dictInsert, if_pos hk, dictGet, hk]
    · simp only [dictInsert, if_neg hk]
      simpa [dictGet, List.find?, hk] using ih

/-- Claim C6 counterexample: `google_api.load_departments` keys the
directory by the code with only the surrounding whitespace stripped — no
uppercasing, no inner-whitespace removal — and
`_resolve_owners_with_departments` looks owners up by the stripped base.
With directory code `"a b"` the stored key is `"a b"`, and the owner base
`"A B"` — which differs from it only in letter case, having the same
normalized form — fails to resolve: the owner is dropped and counted
instead of resolving to the department. -/
theorem C6_counterexample :
    ((loadDepartmentsApi some [["code"], ["a b", "s", "p", "", "rp", ""]]).map
        Prod.fst = ["a b"]) ∧
    normalizeCode "A B" = normalizeCode "a b" ∧
    resolveOwnersWithDepartments
        (dictGet (loadDepartmentsApi some [["code"], ["a b", "s", "p", "", "rp", ""]]))
        [("A B", some 1, true)] = ([], 1) :=
  of_decide_eq_true (by with_unfolding_all rfl)

/-- Claim C6 (amended): the `main.py` / `document_generator.py`
`load_departments` skips every row whose code cell strips to empty and
stores each remaining record under `normalize_code(code)` (all whitespace
removed, uppercased); their `parse_assets` resolves owner bases under the
same normalization, so two codes with the same normalized form resolve to
the same department there.  The `src/src/google_api.py` variant instead
keys by the stripped code and resolves by the stripped base, so codes
differing in case or inner whitespace do not match (see the
counterexample). -/
theorem C6_directory_normalization {Dept : Type} (depts : String → Option Dept) :
    (∀ (acc : List (String × DeptRecGen)) (row : List String),
      pyStrip (safeGet row 1) = "" → loadDepartmentsGenStep acc row = acc) ∧
    (∀ (acc : List (String × DeptRecGen)) (row : List String),
      pyStrip (safeGet row 1) ≠ "" →
        loadDepartmentsGenStep acc row =
          dictInsert acc (normalizeCode (pyStrip (safeGet row 1)))
            ⟨safeGet row 1, safeGet row 2, safeGet row 3, safeGet row 4,
              safeGet row 5, safeGet row 6⟩) ∧
    (∀ (b1 b2 : String) (n : Option ℕ) (e : Bool)
        (rest : List (String × Option ℕ × Bool)),
      normalizeCode b1 = normalizeCode b2 →
        resolveOwnersNormalized depts ((b1, n, e) :: rest) =
          resolveOwnersNormalized depts ((b2, n, e) :: rest)) ∧
    (∀ (acc : List (String × DeptRecGen)) (b code : String) (dv : DeptRecGen),
      normalizeCode b = normalizeCode code →
        dictGet (dictInsert acc (normalizeCode code) dv) (normalizeCode b) = some dv) := by
  refine ⟨?_, ?_, ?_, ?_⟩
  · intro acc row h
    simp [loadDepartmentsGenStep, h]
  · intro acc row h
    simp [loadDepartmentsGenStep, h]
  · intro b1 b2 n e rest h
    unfold resolveOwnersNormalized
    rw [h]
  · intro acc b code dv h
    rw [h]
    exact dictGet_dictInsert acc (normalizeCode code) dv

theorem C6_directory_normalization_witness :
    loadDepartmentsGenStep [] ["", "x"] = [] ∧
    dictGet
        (dictInsert [] (normalizeCode "A B") (⟨"A B", "", "", "", "", ""⟩ : DeptRecGen))
        (normalizeCode "a b") =
      some (⟨"A B", "", "", "", "", ""⟩ : DeptRecGen) := by
  have h := C6_directory_normalization (fun _ => (none : Option String))
  exact ⟨h.1 [] ["", "x"] (of_decide_eq_true (by with_unfolding_all rfl)),
    h.2.2.2 [] "a b" "A B" ⟨"A B", "", "", "", "", ""⟩
      (of_decide_eq_true (by with_unfolding_all rfl))⟩

theorem pyInt_intCast (k : ℤ) : pyInt (k : ℚ) = k := by
  unfold pyInt
  by_cases h : (0 : ℚ) ≤ (k : ℚ)
  · rw [if_pos h, Int.floor_intCast]
  · rw [if_neg h, Int.ceil_intCast]

theorem floor_intCast_div_hundred (k : ℤ) : ⌊(k : ℚ) / 100⌋ = Int.ediv k 100 := by
  have hmod := Int.ediv_add_emod k 100
  have hr0 : 0 ≤ Int.emod k 100 := Int.emod_nonneg k (by norm_num)
  have hr1 : Int.emod k 100 < 100 := Int.emod_lt_of_pos k (by norm_num)
  have hq : (k : ℚ) / 100 = ((Int.emod k 100 : ℤ) : ℚ) / 100 + ((Int.ediv k 100 : ℤ) : ℚ) := by
    have hk : (k : ℚ) = 100 * ((Int.ediv k 100 : ℤ) : ℚ) + ((Int.emod k 100 : ℤ) : ℚ) := by
      exact_mod_cast hmod.symm
    rw [hk]
    ring
  rw [hq, Int.floor_add_int]
  have hz : ⌊((Int.emod k 100 : ℤ) : ℚ) / 100⌋ = 0 := by
    rw [Int.floor_eq_zero_iff, Set.mem_Ico]
    constructor
    · apply div_nonneg
      · exact_mod_cast hr0
      · norm_num
    · rw [div_lt_one (by norm_num)]
      exact_mod_cast hr1
  rw [hz, zero_add]

/-- Claim C8 counterexample: `num2words(1, lang="uk") = "один"`, so on the
amount 1.00 `money_to_words` returns "одна грн. 00 коп." — the feminine
override has been applied to a remainder word (there is no thousands part
at all), while the claim's reading (overrides only on the thousands words
before the thousand-word is appended) yields "один грн. 00 коп.". -/
theorem C8_counterexample :
    moneyToWords (fun n => if n = 1 then "один" else "число") 1 = "одна грн. 00 коп." ∧
    moneyToWordsSpecClaim (fun n => if n = 1 then "один" else "число") 1 =
      "один грн. 00 коп." ∧
    moneyToWords (fun n => if n = 1 then "один" else "число") 1 ≠
      moneyToWordsSpecClaim (fun n => if n = 1 then "один" else "число") 1 :=
  of_decide_eq_true (by with_unfolding_all rfl)

/-- Claim C8 (amended): for every non-negative amount, `money_to_words`
renders the whole-unit part as thousands-words, the thousands noun chosen
by the (ends in 1 / ends in 2–4 / otherwise) agreement rule, then the
remainder words — and applies the feminine overrides "один" → "одна",
"два" → "дві" to the ENTIRE whole-unit words string after assembly
(remainder words included), formatting the result as
"<words> грн. <two-digit cents> коп." where the whole-unit part is `⌊q⌋`
and the cents are `⌊100·q⌋ - 100·⌊q⌋` of the quantized amount `q`. -/
theorem C8_money_to_words (nw : ℤ → String) (amount : ℚ) (h : 0 ≤ amount) :
    moneyToWords nw amount = moneyToWordsAmendedSpec nw amount := by
  have hq : quantizeMoney amount = ((halfUp (amount * 100) : ℤ) : ℚ) / 100 := rfl
  have hmul : (((halfUp (amount * 100) : ℤ) : ℚ) / 100) * 100 =
      ((halfUp (amount * 100) : ℤ) : ℚ) := by field_simp
  have hmod : 100 * Int.ediv (halfUp (amount * 100)) 100 +
      Int.emod (halfUp (amount * 100)) 100 = halfUp (amount * 100) :=
    Int.ediv_add_emod _ 100
  have hcents : halfUp (amount * 100) - 100 * Int.ediv (halfUp (amount * 100)) 100 =
      Int.emod (halfUp (amount * 100)) 100 := by linarith
  simp only [moneyToWords, moneyToWordsAmendedSpec]
  rw [hq, hmul, pyInt_intCast, floor_intCast_div_hundred, Int.floor_intCast, hcents]

theorem C8_money_to_words_witness :
    moneyToWords (fun n => if n = 1 then "один" else "число") 1021 =
      moneyToWordsAmendedSpec (fun n => if n = 1 then "один" else "число") 1021 :=
  C8_money_to_words (fun n => if n = 1 then "один" else "число") 1021
    (of_decide_eq_true (by with_unfolding_all rfl))

theorem extractRowData_main_eq_gen (row : List String)
    (hunit : pyLower (safeGet row MG_COL_UNIT) = safeGet row MG_COL_UNIT) :
    extractRowDataMain row = extractRowDataGen row := by
  unfold extractRowDataMain extractRowDataGen
  rw [hunit]

theorem processRow_main_eq_gen {Dept : Type} (depts : String → Option Dept)
    (row : List String)
    (hflag : (pyUpper (pyStrip (safeGet row MG_COL_GENERATE_FLAG)) = "TRUE") ↔
      (isTrueFlag (safeGet row MG_COL_GENERATE_FLAG) = true))
    (hunit : pyLower (safeGet row MG_COL_UNIT) = safeGet row MG_COL_UNIT) :
    processRowMain depts row = processRowGen depts row := by
  unfold processRowMain processRowGen
  rw [extractRowData_main_eq_gen row hunit]
  exact if_congr Iff.rfl rfl (if_congr (not_congr hflag) rfl rfl)

theorem applyRows_congr {Dept : Type} (pr1 pr2 : List String → RowResult Dept)
    (rows : List (List String)) (st : PState Dept)
    (h : ∀ row ∈ rows, pr1 row = pr2 row) :
    applyRows pr1 rows st = applyRows pr2 rows st := by
  induction rows generalizing st with
  | nil => rfl
  | cons row rest ih =>
    have hstep : applyRows pr1 (row :: rest) st =
        applyRows pr1 rest (applyRow st (pr1 row)) := rfl
    rw [hstep, h row (by simp), ih _ (fun r hr => h r (by simp [hr]))]
    rfl

def valsC10 : List (List String) :=
  [["h"], ["", "Printer", "inv1", "pc", "4", "40", "A-4", "", "1"]]

/-- Claim C10 counterexample: the same asset table and the same department
mapping, with the generate-flag cell `"1"`.  `main.py` accepts only
(case-insensitive) `"TRUE"` and skips the row, while
`document_generator.py` runs it through `is_true_flag`, which accepts
`"1"`, and allocates it — the two pipelines return different per-owner maps
and different counters. -/
theorem C10_counterexample :
    parseAssetsMain deptsDemo valsC10 ≠ parseAssetsGen deptsDemo valsC10 ∧
    (parseAssetsMain deptsDemo valsC10).2.rowsSkipped = 1 ∧
    (parseAssetsMain deptsDemo valsC10).1 = [] ∧
    (parseAssetsGen deptsDemo valsC10).2.rowsProcessed = 1 :=
  of_decide_eq_true (by with_unfolding_all rfl)

/-- Claim C10 (amended): the `main.py` and `document_generator.py`
allocation pipelines produce identical per-owner maps (same owners, same
LineItems, same totals) and identical stats counters on any input whose
rows are classified identically by the two generate-flag predicates
(`strip().upper() == "TRUE"` versus `is_true_flag`) and whose unit cells
are unchanged by lower-casing (`main.py` lower-cases the unit,
`document_generator.py` does not). -/
theorem C10_pipelines_agree {Dept : Type} (depts : String → Option Dept)
    (vals : List (List String))
    (hflag : ∀ row ∈ vals.drop 1,
      (pyUpper (pyStrip (safeGet row MG_COL_GENERATE_FLAG)) = "TRUE") ↔
        (isTrueFlag (safeGet row MG_COL_GENERATE_FLAG) = true))
    (hunit : ∀ row ∈ vals.drop 1,
      pyLower (safeGet row MG_COL_UNIT) = safeGet row MG_COL_UNIT) :
    parseAssetsMain depts vals = parseAssetsGen depts vals := by
  unfold parseAssetsMain parseAssetsGen
  by_cases hlen : vals.length < 2
  · rw [if_pos hlen, if_pos hlen]
  · rw [if_neg hlen, if_neg hlen]
    exact applyRows_congr _ _ _ _
      (fun row hr => processRow_main_eq_gen depts row (hflag row hr) (hunit row hr))

def valsC10w : List (List String) :=
  [["h"], ["", "Printer", "inv1", "pc", "4", "40", "A-4", "", "TRUE"]]

theorem C10_pipelines_agree_witness :
    parseAssetsMain deptsDemo valsC10w = parseAssetsGen deptsDemo valsC10w :=
  C10_pipelines_agree deptsDemo valsC10w
    (of_decide_eq_true (by with_unfolding_all rfl))
    (of_decide_eq_true (by with_unfolding_all rfl))
